import Mathlib

/-!
Verification of `simplecoin_rpc_client/rpc.py` against its specification.

The single source file defines a `Payout` table (sqlite via SQLAlchemy) and an
`RPCClient` whose operations are `pull_payouts`, `payout`, `confirm_trans`,
`associate_all`/`associate` and `reset_all_locked`.  We embed the store as a
`List PayoutRec` and each operation as a pure function.  Because the SQLAlchemy
session distinguishes uncommitted in-memory changes from committed (durable)
rows, `payout` returns both the durable store and the final session view.
-/

namespace Simplecoin

/-- One row of the `payouts` table (`class Payout` in rpc.py).
Timestamps are abstract `Nat` instants; `txid` is nullable. -/
structure PayoutRec where
  pid : String
  user : String
  amount : Int
  txid : Option String
  associated : Bool
  locked : Bool
  lock_time : Option Nat
  paid_time : Option Nat
  assoc_time : Option Nat
  pull_time : Option Nat
deriving Repr, DecidableEq

/-- The snapshot filter of `payout`: `filter_by(txid=None, locked=False)`. -/
def eligible (r : PayoutRec) : Bool :=
  r.txid.isNone && !r.locked

/-- `payout.locked = True; payout.lock_time = datetime.utcnow()`. -/
def lockRec (now : Nat) (r : PayoutRec) : PayoutRec :=
  { r with locked := true, lock_time := some now }

/-- The success branch of `payout`: `locked = False; txid = coin_txid;
paid_time = datetime.utcnow()`. -/
def payRec (t : String) (now : Nat) (r : PayoutRec) : PayoutRec :=
  { r with locked := false, txid := some t, paid_time := some now }

/-- The clean-failure branch: `payout.locked = False` (only the flag). -/
def unlockRec (r : PayoutRec) : PayoutRec :=
  { r with locked := false }

/-- Keys of the `user_payout_amounts` dict in insertion order:
distinct users of the snapshot, first occurrence first. -/
def usersOf (snap : List PayoutRec) : List String :=
  snap.foldl (fun acc r => if acc.contains r.user then acc else acc ++ [r.user]) []

/-- Value of the `user_payout_amounts` dict at a user: the sum of the
amounts of that user's snapshot records. -/
def aggUser (snap : List PayoutRec) (u : String) : Int :=
  ((snap.filter (fun r => r.user = u)).map (fun r => r.amount)).sum

/-- `total_out = sum(user_payout_amounts.values())`. -/
def totalOut (snap : List PayoutRec) : Int :=
  ((usersOf snap).map (fun u => aggUser snap u)).sum

/-- The dict actually passed to `sendmany`: the per-user aggregation after
the line `user_payout_amounts["test"] = 1.1` has run.  Assigning to the key
`"test"` overwrites it when present and appends it otherwise; `1.1` is a
float, hence the `ℚ` value type. -/
def sentRecipients (snap : List PayoutRec) : List (String × ℚ) :=
  ((usersOf snap).map
      (fun u => (u, if u = "test" then (11 : ℚ)/10 else (aggUser snap u : ℚ))))
    ++ (if (usersOf snap).contains "test" then [] else [("test", (11 : ℚ)/10)])

/-- Outcome of the `sendmany` RPC call: a txid, or a `CoinRPCException`. -/
inductive SendOutcome where
  | ok (txid : String)
  | err
deriving Repr, DecidableEq

/-- Return value of `payout`: `True` (empty snapshot), `False`,
the implicit `None` of the fall-through path, or the txid. -/
inductive PayoutRet where
  | retTrue
  | retFalse
  | retNone
  | retTxid (t : String)
deriving Repr, DecidableEq

/-- Result of one `payout` run: the committed (durable) store, the final
in-memory session view, the return value, and the list of recipient maps
passed to `sendmany` (one entry per send call). -/
structure PayoutOutcome where
  durable : List PayoutRec
  sess : List PayoutRec
  ret : PayoutRet
  sends : List (List (String × ℚ))
deriving Repr

/-- `RPCClient.payout` (non-simulate).  `balance` is the pre-send
`getbalance` reading in satoshi, `send` the `sendmany` outcome and
`newBalance` the re-read balance used only on the exception path.

Branches, in source order: empty snapshot returns `True`; the snapshot
records are locked in the session; `balance < total_out` rolls the session
back and returns `False` with no send; otherwise the locks are committed and
`sendmany` is called.  On success every snapshot record gets the txid,
`paid_time`, `locked=False`, and this is committed.  On `CoinRPCException`
with a changed balance nothing further is written (the committed locks
stand) and `False` is returned.  With an unchanged balance the records are
unlocked in the session only — the source never commits on that path — and
the function falls through, returning `None`. -/
def payout (store : List PayoutRec) (balance : Int) (send : SendOutcome)
    (newBalance : Int) (now : Nat) : PayoutOutcome :=
  let snap := store.filter (fun r => eligible r)
  if snap.isEmpty then
    ⟨store, store, .retTrue, []⟩
  else
    if balance < totalOut snap then
      ⟨store, store, .retFalse, []⟩
    else
      match send with
      | .ok t =>
          let paid := store.map
            (fun r => if eligible r then payRec t now (lockRec now r) else r)
          ⟨paid, paid, .retTxid t, [sentRecipients snap]⟩
      | .err =>
          let lockedStore := store.map
            (fun r => if eligible r then lockRec now r else r)
          if newBalance ≠ balance then
            ⟨lockedStore, lockedStore, .retFalse, [sentRecipients snap]⟩
          else
            let sessUnlocked := store.map
              (fun r => if eligible r then unlockRec (lockRec now r) else r)
            ⟨lockedStore, sessUnlocked, .retNone, [sentRecipients snap]⟩

/-- `RPCClient.reset_all_locked` (non-simulate): bulk
`UPDATE payouts SET locked = 0 WHERE locked = 1`, then commit. -/
def reset_all_locked (store : List PayoutRec) : List PayoutRec :=
  store.map (fun r => if r.locked then { r with locked := false } else r)

/-- `get_bcaddress_version(user) in self.config["valid_address_versions"]`:
the external version extractor returns a version byte or `None`, and `None`
is never a member of the configured integer list. -/
def addrVersionOK (ver : String → Option Nat) (versions : List Nat)
    (u : String) : Bool :=
  match ver u with
  | some v => versions.contains v
  | none => false

/-- A freshly inserted row of `pull_payouts`:
`Payout(pid=pid, user=user, amount=amount, pull_time=utcnow())`, with the
column defaults `associated=False`, `locked=False`, `txid` null. -/
def mkPayout (pid user : String) (amount : Int) (now : Nat) : PayoutRec :=
  ⟨pid, user, amount, none, false, false, none, none, none, some now⟩

/-- State threaded through the `pull_payouts` loop: the (autoflushed) store
plus the `new` / `repeat` / `invalid` counters. -/
structure PullState where
  store : List PayoutRec
  newCount : Nat
  repeatCount : Nat
  invalidCount : Nat
deriving Repr, DecidableEq

/-- One iteration of the `pull_payouts` loop over `(user, amount, pid)`:
invalid address counts `invalid`; an existing row with the same `pid`
(`query(Payout).filter_by(pid=pid).first()`, which sees rows added earlier
in the same loop through autoflush) counts `repeat`; otherwise a new row is
added and counts `new`. -/
def pullStep (ver : String → Option Nat) (versions : List Nat) (now : Nat)
    (acc : PullState) (p : String × Int × String) : PullState :=
  let (user, amount, pid) := p
  if addrVersionOK ver versions user then
    if acc.store.any (fun r => decide (r.pid = pid)) then
      { acc with repeatCount := acc.repeatCount + 1 }
    else
      { acc with store := acc.store ++ [mkPayout pid user amount now],
                 newCount := acc.newCount + 1 }
  else
    { acc with invalidCount := acc.invalidCount + 1 }

/-- `RPCClient.pull_payouts` (non-simulate): loop over the fetched
`(user, amount, pid)` triples, then commit. -/
def pull_payouts (store : List PayoutRec) (ver : String → Option Nat)
    (versions : List Nat) (now : Nat)
    (payouts : List (String × Int × String)) : PullState :=
  payouts.foldl (pullStep ver versions now) ⟨store, 0, 0, 0⟩

/-- A transaction object returned by the remote `api/transaction` filter.
`fee` distinguishes an absent key, a key set to null, and a numeric value,
because `confirm_trans` tests both `obj.get("fee")` and `'fee' in obj`. -/
inductive FeeField where
  | absent
  | nul
  | val (q : ℚ)
deriving Repr, DecidableEq

/-- `'fee' in obj`. -/
def feeKeyPresent : FeeField → Bool
  | .absent => false
  | .nul => true
  | .val _ => true

/-- Truthiness of `obj.get("fee")`: a missing key and null are falsy, a
number is falsy exactly when it is zero. -/
def feeTruthy : FeeField → Bool
  | .absent => false
  | .nul => false
  | .val q => decide (q ≠ 0)

structure RemoteTxObj where
  txid : String
  fee : FeeField
deriving Repr, DecidableEq

/-- The `gettransaction` reply used by `confirm_trans`: a confirmation count
and an optional `fee` Decimal. -/
structure WalletTx where
  confirmations : Int
  fee : Option ℚ
deriving Repr, DecidableEq

/-- Python `int()` applied to a `Decimal`: truncation toward zero. -/
def pyTrunc (q : ℚ) : Int :=
  if 0 ≤ q then ⌊q⌋ else -⌊-q⌋

/-- The `tids` list built by `confirm_trans`: txids of objects whose wallet
lookup succeeded with `confirmations > trans_confirmations`.  A failed
lookup (`lookup = none`) is logged and skipped. -/
def confirmTids (lookup : String → Option WalletTx) (threshold : Int)
    (objs : List RemoteTxObj) : List String :=
  objs.filterMap (fun obj =>
    match lookup obj.txid with
    | none => none
    | some td =>
        if td.confirmations > threshold then some obj.txid else none)

/-- The `fees` dict built by `confirm_trans`, as an association list in
insertion order: an entry is added for an object exactly when
`'fee' in trans_data and not obj.get("fee") and 'fee' in obj`, with value
`int(trans_data['fee'] * 100000000)`. -/
def confirmFeesList (lookup : String → Option WalletTx)
    (objs : List RemoteTxObj) : List (String × Int) :=
  objs.filterMap (fun obj =>
    match lookup obj.txid with
    | none => none
    | some td =>
        match td.fee with
        | none => none
        | some f =>
            if feeKeyPresent obj.fee && !feeTruthy obj.fee then
              some (obj.txid, pyTrunc (f * 100000000))
            else none)

/-- `associate` marks one record: `payout.associated = True;
payout.assoc_time = datetime.utcnow()`. -/
def markAssoc (now : Nat) (r : PayoutRec) : PayoutRec :=
  { r with associated := true, assoc_time := some now }

/-- The selection filter of `associate_all`:
`filter_by(associated=False).filter(Payout.txid != None)`. -/
def assocEligible (r : PayoutRec) : Bool :=
  !r.associated && r.txid.isSome

/-- The inner loop body of `associate`: mutate one record (matched by pid)
and commit immediately — the source commits inside the `for` loop, so each
record produces its own durable state, recorded in the trace. -/
def assocStep (now : Nat) (acc : List PayoutRec × List (List PayoutRec))
    (pid : String) : List PayoutRec × List (List PayoutRec) :=
  let st := acc.1.map (fun r => if r.pid = pid then markAssoc now r else r)
  (st, acc.2 ++ [st])

/-- `RPCClient.associate` for one txid group: push to remote (`accept t`);
on a true `result` mark the group's records one by one, committing after
each; on false touch nothing and return `False`.  Returns the final store,
the trace of durable states after each commit, and the return value. -/
def associate (accept : String → Bool) (now : Nat) (t : String)
    (pids : List String) (store : List PayoutRec) :
    List PayoutRec × List (List PayoutRec) × Bool :=
  if accept t then
    let res := pids.foldl (assocStep now) (store, [])
    (res.1, res.2, true)
  else
    (store, [], false)

/-- One iteration of the `txids.setdefault(...)/append` grouping loop of
`associate_all`: append the pid to the existing group of its txid, or start
a new group. -/
def groupStep (acc : List (String × List String)) (r : PayoutRec) :
    List (String × List String) :=
  match r.txid with
  | none => acc
  | some t =>
      if acc.any (fun p => decide (p.1 = t)) then
        acc.map (fun p => if p.1 = t then (p.1, p.2 ++ [r.pid]) else p)
      else
        acc ++ [(t, [r.pid])]

/-- The `txids` dict of `associate_all`: the unassociated paid records
grouped by txid, in insertion order. -/
def groupByTxid (store : List PayoutRec) : List (String × List String) :=
  (store.filter (fun r => assocEligible r)).foldl groupStep []

/-- `RPCClient.associate_all` (non-simulate): group, then run `associate`
for each group in turn, each group's result feeding the next call's view of
the store.  Only the final store matters here. -/
def associate_all (accept : String → Bool) (now : Nat)
    (store : List PayoutRec) : List PayoutRec :=
  (groupByTxid store).foldl
    (fun st g => (associate accept now g.1 g.2 st).1) store

/-- `payout` never adds or deletes rows. -/
theorem payout_durable_length (store : List PayoutRec) (balance : Int)
    (send : SendOutcome) (newBalance : Int) (now : Nat) :
    (payout store balance send newBalance now).durable.length
      = store.length := by
  by_cases h0 : (store.filter (fun r => eligible r)).isEmpty = true
  · simp [payout, h0]
  · by_cases h1 : balance < totalOut (store.filter (fun r => eligible r))
    · simp [payout, h0, h1]
    · cases send with
      | ok t => simp [payout, h0, h1]
      | err =>
          by_cases h2 : newBalance = balance
          · simp [payout, h0, h1, h2]
          · simp [payout, h0, h1, h2]

/-- The spec's record invariant: `associated=true ⇒ transactionId≠null`. -/
def StoreInv (store : List PayoutRec) : Prop :=
  ∀ r ∈ store, r.associated = true → r.txid ≠ none

/-! ### Concrete stores used as counterexamples and witnesses -/

/-- A store with a single eligible record: pid `p1`, beneficiary `alice`,
5 units, unpaid and unlocked. -/
def oneRecStore : List PayoutRec :=
  [⟨"p1", "alice", 5, none, false, false, none, none, none, none⟩]

/-- Two paid, unassociated records sharing txid `t`. -/
def assocPairStore : List PayoutRec :=
  [⟨"a", "u1", 1, some "t", false, false, none, none, none, none⟩,
   ⟨"b", "u2", 2, some "t", false, false, none, none, none, none⟩]

/-! ### Helper lemmas -/

theorem markAssoc_pid (now : Nat) (r : PayoutRec) :
    (markAssoc now r).pid = r.pid := rfl

theorem markAssoc_idem (now : Nat) (r : PayoutRec) :
    markAssoc now (markAssoc now r) = markAssoc now r := rfl

/-- The per-record loop of `associate` marks exactly the records whose pid
is in the pushed list. -/
theorem assocFold_fst (now : Nat) (pids : List String) :
    ∀ (st : List PayoutRec) (tr : List (List PayoutRec)),
      (pids.foldl (assocStep now) (st, tr)).1
        = st.map (fun r => if r.pid ∈ pids then markAssoc now r else r) := by
  induction pids with
  | nil =>
      intro st tr
      simp
  | cons p ps ih =>
      intro st tr
      rw [List.foldl_cons]
      show (ps.foldl (assocStep now)
        (st.map (fun r => if r.pid = p then markAssoc now r else r), _)).1 = _
      rw [ih, List.map_map]
      apply List.map_congr_left
      intro r _
      by_cases hp : r.pid = p
      · by_cases hm : r.pid ∈ ps
        · simp [Function.comp, hp, hm, markAssoc_idem]
        · simp [Function.comp, hp, hm, markAssoc_pid, markAssoc_idem]
      · by_cases hm : r.pid ∈ ps
        · simp [Function.comp, hp, hm]
        · simp [Function.comp, hp, hm]

theorem associate_fst_accept (accept : String → Bool) (now : Nat)
    (t : String) (pids : List String) (store : List PayoutRec)
    (h : accept t = true) :
    (associate accept now t pids store).1
      = store.map (fun r => if r.pid ∈ pids then markAssoc now r else r) := by
  simp only [associate, h, if_true]
  exact assocFold_fst now pids store []

theorem associate_reject (accept : String → Bool) (now : Nat)
    (t : String) (pids : List String) (store : List PayoutRec)
    (h : accept t = false) :
    associate accept now t pids store = (store, [], false) := by
  simp [associate, h]

/-- Positionally, `associate` leaves a record alone or marks it; marking
happens only when the record's pid is in the pushed group. -/
theorem associate_fst_getElem (accept : String → Bool) (now : Nat)
    (t : String) (pids : List String) (store : List PayoutRec)
    (i : Nat) (r : PayoutRec) (h : store[i]? = some r) :
    (associate accept now t pids store).1[i]? = some r ∨
    ((associate accept now t pids store).1[i]? = some (markAssoc now r) ∧
      r.pid ∈ pids) := by
  by_cases ha : accept t = true
  · rw [associate_fst_accept accept now t pids store ha, List.getElem?_map, h]
    by_cases hm : r.pid ∈ pids
    · right
      simp [hm]
    · left
      simp [hm]
  · rw [associate_reject accept now t pids store (by simpa using ha)]
    left
    exact h

/-- Positionally, the group fold of `associate_all` leaves a record alone or
marks it, and marking requires membership of its pid in some group. -/
theorem assocAllFold_getElem (accept : String → Bool) (now : Nat) :
    ∀ (gs : List (String × List String)) (st : List PayoutRec)
      (i : Nat) (s : PayoutRec), st[i]? = some s →
      (gs.foldl (fun st g => (associate accept now g.1 g.2 st).1) st)[i]?
          = some s ∨
      ((gs.foldl (fun st g => (associate accept now g.1 g.2 st).1) st)[i]?
          = some (markAssoc now s) ∧ ∃ g ∈ gs, s.pid ∈ g.2) := by
  intro gs
  induction gs with
  | nil =>
      intro st i s h
      left
      simpa using h
  | cons g gs ih =>
      intro st i s h
      rw [List.foldl_cons]
      rcases associate_fst_getElem accept now g.1 g.2 st i s h with h1 | ⟨h1, hm⟩
      · rcases ih _ i s h1 with h2 | ⟨h2, g', hg', hm'⟩
        · left
          exact h2
        · right
          exact ⟨h2, g', List.mem_cons_of_mem g hg', hm'⟩
      · rcases ih _ i (markAssoc now s) h1 with h2 | ⟨h2, g', hg', hm'⟩
        · right
          exact ⟨h2, g, List.mem_cons_self g gs, hm⟩
        · right
          rw [markAssoc_idem] at h2
          exact ⟨h2, g, List.mem_cons_self g gs, hm⟩

/-- The `pull_payouts` loop only appends rows, and every appended row is a
fresh unpaid, unlocked, unassociated record. -/
theorem pullFold_store_shape (ver : String → Option Nat)
    (versions : List Nat) (now : Nat) :
    ∀ (payouts : List (String × Int × String)) (acc : PullState),
      ∃ ext : List PayoutRec,
        (payouts.foldl (pullStep ver versions now) acc).store
            = acc.store ++ ext ∧
        ∀ r ∈ ext, r.txid = none ∧ r.associated = false ∧ r.locked = false := by
  intro payouts
  induction payouts with
  | nil =>
      intro acc
      exact ⟨[], by simp, by simp⟩
  | cons p ps ih =>
      intro acc
      rw [List.foldl_cons]
      obtain ⟨ext, he, hprop⟩ := ih (pullStep ver versions now acc p)
      obtain ⟨u, amt, pid⟩ := p
      by_cases hv : addrVersionOK ver versions u = true
      · by_cases hdup :
          acc.store.any (fun r => decide (r.pid = pid)) = true
        · refine ⟨ext, ?_, hprop⟩
          rw [he]
          simp [pullStep, hv, hdup]
        · refine ⟨mkPayout pid u amt now :: ext, ?_, ?_⟩
          · rw [he]
            simp [pullStep, hv, hdup]
          · intro r hr
            rcases List.mem_cons.mp hr with hr | hr
            · subst hr
              exact ⟨rfl, rfl, rfl⟩
            · exact hprop r hr
      · refine ⟨ext, ?_, hprop⟩
        rw [he]
        simp [pullStep, hv]

theorem associate_fst_length (accept : String → Bool) (now : Nat)
    (t : String) (pids : List String) (store : List PayoutRec) :
    (associate accept now t pids store).1.length = store.length := by
  by_cases h : accept t = true
  · rw [associate_fst_accept accept now t pids store h]
    simp
  · rw [associate_reject accept now t pids store (by simpa using h)]

theorem assocAllFold_length (accept : String → Bool) (now : Nat) :
    ∀ (gs : List (String × List String)) (st : List PayoutRec),
      (gs.foldl (fun st g => (associate accept now g.1 g.2 st).1) st).length
        = st.length := by
  intro gs
  induction gs with
  | nil =>
      intro st
      rfl
  | cons g gs ih =>
      intro st
      rw [List.foldl_cons, ih, associate_fst_length]

theorem associate_all_length (accept : String → Bool) (now : Nat)
    (store : List PayoutRec) :
    (associate_all accept now store).length = store.length :=
  assocAllFold_length accept now (groupByTxid store) store

/-- Invariant of the fold building the `txids` dict: every pid in any group
comes from an unassociated paid record of the store carrying that group's
txid. -/
theorem groupFold_sound (store : List PayoutRec) :
    ∀ (l : List PayoutRec) (acc : List (String × List String)),
      (∀ r ∈ l, r ∈ store ∧ assocEligible r = true) →
      (∀ g ∈ acc, ∀ p ∈ g.2,
        ∃ r ∈ store, r.pid = p ∧ r.associated = false ∧ r.txid = some g.1) →
      ∀ g ∈ l.foldl groupStep acc, ∀ p ∈ g.2,
        ∃ r ∈ store, r.pid = p ∧ r.associated = false ∧ r.txid = some g.1 := by
  intro l
  induction l with
  | nil =>
      intro acc _ hacc
      simpa using hacc
  | cons r l' ih =>
      intro acc hl hacc
      rw [List.foldl_cons]
      apply ih _ (fun s hs => hl s (List.mem_cons_of_mem r hs))
      obtain ⟨hrs, hre⟩ := hl r (List.mem_cons_self r l')
      have hassoc : r.associated = false := by
        have := hre
        simp only [assocEligible, Bool.and_eq_true, Bool.not_eq_true'] at this
        exact this.1
      cases hx : r.txid with
      | none =>
          simpa [groupStep, hx] using hacc
      | some t =>
          by_cases hdup :
            (acc.any (fun p => decide (p.1 = t))) = true
          · simp only [groupStep, hx, hdup, if_true]
            intro g hg p hp
            rcases List.mem_map.mp hg with ⟨g0, hg0, him⟩
            by_cases hteq : g0.1 = t
            · rw [if_pos hteq] at him
              subst him
              rcases List.mem_append.mp hp with hp | hp
              · exact hacc g0 hg0 p hp
              · have hpe : p = r.pid := by simpa using hp
                subst hpe
                exact ⟨r, hrs, rfl, hassoc, by rw [hx, hteq]⟩
            · rw [if_neg hteq] at him
              subst him
              exact hacc g0 hg0 p hp
          · simp only [groupStep, hx, hdup, Bool.false_eq_true, if_false]
            intro g hg p hp
            rcases List.mem_append.mp hg with hg | hg
            · exact hacc g hg p hp
            · have hge : g = (t, [r.pid]) := by simpa using hg
              subst hge
              have hpe : p = r.pid := by simpa using hp
              subst hpe
              exact ⟨r, hrs, rfl, hassoc, hx⟩

/-- Soundness of the `txids` grouping of `associate_all`. -/
theorem groupByTxid_sound (store : List PayoutRec) :
    ∀ g ∈ groupByTxid store, ∀ p ∈ g.2,
      ∃ r ∈ store, r.pid = p ∧ r.associated = false ∧ r.txid = some g.1 := by
  apply groupFold_sound store (store.filter (fun r => assocEligible r)) []
  · intro r hr
    have := List.mem_filter.mp hr
    exact ⟨this.1, this.2⟩
  · intro g hg
    simp at hg

/-- Positional branch analysis of one `payout` run: each record is either
untouched, or — when eligible — left locked or paid. -/
theorem payout_durable_getElem (store : List PayoutRec) (balance : Int)
    (send : SendOutcome) (newBalance : Int) (now : Nat)
    (i : Nat) (r : PayoutRec) (h : store[i]? = some r) :
    (payout store balance send newBalance now).durable[i]? = some r ∨
    (eligible r = true ∧
      ((payout store balance send newBalance now).durable[i]?
          = some (lockRec now r) ∨
       ∃ t, (payout store balance send newBalance now).durable[i]?
          = some (payRec t now (lockRec now r)))) := by
  by_cases h0 : (store.filter (fun r => eligible r)).isEmpty = true
  · left
    simp only [payout, h0, if_true]
    exact h
  · by_cases h1 : balance < totalOut (store.filter (fun r => eligible r))
    · left
      simp only [payout, h0, Bool.false_eq_true, if_false, if_pos h1]
      exact h
    · by_cases he : eligible r = true
      · right
        refine ⟨he, ?_⟩
        cases send with
        | ok t =>
            right
            refine ⟨t, ?_⟩
            simp [payout, h0, h1, List.getElem?_map, h, he]
        | err =>
            left
            by_cases h2 : newBalance = balance
            · simp [payout, h0, h1, h2, List.getElem?_map, h, he]
            · simp [payout, h0, h1, h2, List.getElem?_map, h, he]
      · left
        have he' : eligible r = false := by simpa using he
        cases send with
        | ok t =>
            simp [payout, h0, h1, List.getElem?_map, h, he']
        | err =>
            by_cases h2 : newBalance = balance
            · simp [payout, h0, h1, h2, List.getElem?_map, h, he']
            · simp [payout, h0, h1, h2, List.getElem?_map, h, he']

/-! ### Claim theorems -/

/-- C2: if the wallet balance read during Disburse is strictly less than the
aggregated total requested, `payout` performs zero `sendmany` calls, returns
`False`, and the durable store is unchanged — so every snapshot record is
still unlocked with `txid` unset. -/
theorem payout_insufficient_balance_aborts
    (store : List PayoutRec) (balance newBalance : Int) (send : SendOutcome)
    (now : Nat)
    (hne : store.filter (fun r => eligible r) ≠ [])
    (hlt : balance < totalOut (store.filter (fun r => eligible r))) :
    (payout store balance send newBalance now).sends = [] ∧
    (payout store balance send newBalance now).ret = PayoutRet.retFalse ∧
    (payout store balance send newBalance now).durable = store ∧
    ∀ r ∈ (payout store balance send newBalance now).durable,
      eligible r = true → r.locked = false ∧ r.txid = none := by
  have h1 : (store.filter (fun r => eligible r)).isEmpty = false := by
    simpa [List.isEmpty_iff] using hne
  refine ⟨?_, ?_, ?_, ?_⟩ <;>
    simp only [payout, h1, Bool.false_eq_true, if_false, if_pos hlt]
  intro r _ he
  have he' := he
  simp only [eligible, Bool.and_eq_true, Option.isNone_iff_eq_none,
    Bool.not_eq_true'] at he'
  exact ⟨he'.2, he'.1⟩

/-- C2 witness. -/
theorem payout_insufficient_balance_aborts_witness :
    (payout oneRecStore 3 SendOutcome.err 0 7).sends = [] ∧
    (payout oneRecStore 3 SendOutcome.err 0 7).ret = PayoutRet.retFalse :=
  ⟨(payout_insufficient_balance_aborts oneRecStore 3 0 SendOutcome.err 7
      (by decide) (by decide)).1,
   (payout_insufficient_balance_aborts oneRecStore 3 0 SendOutcome.err 7
      (by decide) (by decide)).2.1⟩

/-- C3 (code-bug evidence): a `sendmany` failure with an unchanged re-read
balance makes `payout` set `locked=False` on the session objects only; the
source returns without committing, so the durable store still has the batch
locked, and the function falls through returning `None`. -/
theorem payout_cleanfail_unlock_not_committed :
    (payout oneRecStore 100 SendOutcome.err 100 7).ret = PayoutRet.retNone ∧
    (payout oneRecStore 100 SendOutcome.err 100 7).sess.map
      (fun r => r.locked) = [false] ∧
    (payout oneRecStore 100 SendOutcome.err 100 7).durable.map
      (fun r => r.locked) = [true] := by
  exact ⟨rfl, rfl, rfl⟩

/-- C5 (code-bug evidence): the dict handed to `sendmany` is not the
per-beneficiary aggregation of the snapshot: the line
`user_payout_amounts["test"] = 1.1` injects an extra `"test"` recipient
(with a float amount) into every real send, although no snapshot record has
beneficiary `"test"`. -/
theorem payout_send_includes_test_recipient :
    (payout oneRecStore 100 (SendOutcome.ok "t") 100 7).sends
      = [[("alice", (5 : ℚ)), ("test", (11 : ℚ)/10)]] ∧
    ∀ r ∈ oneRecStore, r.user ≠ "test" :=
  ⟨rfl, by decide⟩

/-- C4: when `sendmany` succeeds with txid `t`, `payout` returns `t`, and
for every snapshot record the committed store (equal to the session, i.e.
committed before the success return) carries `txid = t`,
`paid_time = now` and `locked = false`. -/
theorem payout_success_records (store : List PayoutRec)
    (balance newBalance : Int) (t : String) (now : Nat)
    (hne : store.filter (fun r => eligible r) ≠ [])
    (hge : ¬ balance < totalOut (store.filter (fun r => eligible r))) :
    (payout store balance (SendOutcome.ok t) newBalance now).ret
        = PayoutRet.retTxid t ∧
    (payout store balance (SendOutcome.ok t) newBalance now).durable
        = (payout store balance (SendOutcome.ok t) newBalance now).sess ∧
    ∀ (i : Nat) (r : PayoutRec), store[i]? = some r → eligible r = true →
      ∃ r', (payout store balance (SendOutcome.ok t) newBalance now).durable[i]?
          = some r' ∧
        r'.txid = some t ∧ r'.paid_time = some now ∧ r'.locked = false := by
  have h0 : (store.filter (fun r => eligible r)).isEmpty = false := by
    simpa [List.isEmpty_iff] using hne
  refine ⟨?_, ?_, ?_⟩
  · simp [payout, h0, hge]
  · simp [payout, h0, hge]
  · intro i r h he
    refine ⟨payRec t now (lockRec now r), ?_, rfl, rfl, rfl⟩
    simp [payout, h0, hge, List.getElem?_map, h, he]

/-- C4 witness. -/
theorem payout_success_records_witness :
    ∃ r', (payout oneRecStore 100 (SendOutcome.ok "t") 100 7).durable[0]?
        = some r' ∧
      r'.txid = some "t" ∧ r'.paid_time = some 7 ∧ r'.locked = false :=
  (payout_success_records oneRecStore 100 100 "t" 7 (by decide) (by decide)).2.2
    0 ⟨"p1", "alice", 5, none, false, false, none, none, none, none⟩ rfl rfl

/-- C1: on a `sendmany` failure with a changed re-read balance, `payout`
returns `False` and the committed store is exactly the lock of the snapshot
(every batch record durably `locked=true`); and no operation other than
`reset_all_locked` ever clears a `locked=true` flag — `pull_payouts`,
`payout` and `associate_all` all preserve it positionally, and
`confirm_trans` never reads or writes the local store at all (its embedding
below takes no store argument). -/
theorem payout_ambiguous_failure_stays_locked :
    (∀ (store : List PayoutRec) (balance newBalance : Int) (now : Nat),
      store.filter (fun r => eligible r) ≠ [] →
      ¬ balance < totalOut (store.filter (fun r => eligible r)) →
      newBalance ≠ balance →
      (payout store balance SendOutcome.err newBalance now).ret
          = PayoutRet.retFalse ∧
      (payout store balance SendOutcome.err newBalance now).durable
          = store.map (fun r => if eligible r then lockRec now r else r) ∧
      ∀ (i : Nat) (r : PayoutRec), store[i]? = some r → eligible r = true →
        ∃ r', (payout store balance SendOutcome.err newBalance now).durable[i]?
            = some r' ∧ r'.locked = true) ∧
    (∀ (store : List PayoutRec) (ver : String → Option Nat)
        (versions : List Nat) (now : Nat)
        (payouts : List (String × Int × String)) (i : Nat) (r : PayoutRec),
      store[i]? = some r → r.locked = true →
      ∃ r', (pull_payouts store ver versions now payouts).store[i]? = some r' ∧
        r'.locked = true) ∧
    (∀ (store : List PayoutRec) (balance newBalance : Int)
        (send : SendOutcome) (now : Nat) (i : Nat) (r : PayoutRec),
      store[i]? = some r → r.locked = true →
      ∃ r', (payout store balance send newBalance now).durable[i]? = some r' ∧
        r'.locked = true) ∧
    (∀ (accept : String → Bool) (now : Nat) (store : List PayoutRec)
        (i : Nat) (r : PayoutRec),
      store[i]? = some r → r.locked = true →
      ∃ r', (associate_all accept now store)[i]? = some r' ∧
        r'.locked = true) := by
  refine ⟨?_, ?_, ?_, ?_⟩
  · intro store balance newBalance now hne hge hchg
    have h0 : (store.filter (fun r => eligible r)).isEmpty = false := by
      simpa [List.isEmpty_iff] using hne
    refine ⟨?_, ?_, ?_⟩
    · simp [payout, h0, hge, hchg]
    · simp [payout, h0, hge, hchg]
    · intro i r h he
      refine ⟨lockRec now r, ?_, rfl⟩
      simp [payout, h0, hge, hchg, List.getElem?_map, h, he]
  · intro store ver versions now payouts i r h hl
    obtain ⟨ext, hext, -⟩ :=
      pullFold_store_shape ver versions now payouts ⟨store, 0, 0, 0⟩
    have hi : i < store.length := by
      rcases List.getElem?_eq_some_iff.mp h with ⟨hi, -⟩
      exact hi
    refine ⟨r, ?_, hl⟩
    rw [pull_payouts, hext, List.getElem?_append]
    simpa [hi] using h
  · intro store balance newBalance send now i r h hl
    rcases payout_durable_getElem store balance send newBalance now i r h with
      h1 | ⟨he, -⟩
    · exact ⟨r, h1, hl⟩
    · exfalso
      simp [eligible, hl] at he
  · intro accept now store i r h hl
    rcases assocAllFold_getElem accept now (groupByTxid store) store i r h with
      h1 | ⟨h1, -⟩
    · exact ⟨r, h1, hl⟩
    · exact ⟨markAssoc now r, h1, hl⟩

/-- C1 witness. -/
theorem payout_ambiguous_failure_stays_locked_witness :
    (payout oneRecStore 100 SendOutcome.err 99 7).ret = PayoutRet.retFalse ∧
    (∃ r', (associate_all (fun _ => true) 9
        [⟨"q", "bob", 2, none, false, true, some 1, none, none, none⟩])[0]?
          = some r' ∧ r'.locked = true) :=
  ⟨(payout_ambiguous_failure_stays_locked.1 oneRecStore 100 99 7
      (by decide) (by decide) (by decide)).1,
   payout_ambiguous_failure_stays_locked.2.2.2 (fun _ => true) 9
      [⟨"q", "bob", 2, none, false, true, some 1, none, none, none⟩] 0
      ⟨"q", "bob", 2, none, false, true, some 1, none, none, none⟩ rfl rfl⟩

/-- C7 counterexample: an accepted group is not marked in one local
transaction.  The source commits inside the per-record loop, so for the
group `{a, b}` sharing txid `t` there is a committed durable state in which
`a` is already associated while `b` is not. -/
theorem associate_commits_per_record :
    ∃ s ∈ (associate (fun _ => true) 9 "t" ["a", "b"] assocPairStore).2.1,
      (∃ r ∈ s, r.pid = "a" ∧ r.associated = true) ∧
      (∃ r ∈ s, r.pid = "b" ∧ r.associated = false) := by decide

/-- The `pull_payouts` loop never lets the number of rows sharing one pid
grow beyond one. -/
theorem pullFold_countP_le (ver : String → Option Nat) (versions : List Nat)
    (now : Nat) (pid : String) :
    ∀ (payouts : List (String × Int × String)) (acc : PullState),
      acc.store.countP (fun r => decide (r.pid = pid)) ≤ 1 →
      (payouts.foldl (pullStep ver versions now) acc).store.countP
        (fun r => decide (r.pid = pid)) ≤ 1 := by
  intro payouts
  induction payouts with
  | nil =>
      intro acc hacc
      simpa using hacc
  | cons p ps ih =>
      intro acc hacc
      rw [List.foldl_cons]
      apply ih
      obtain ⟨u, amt, p'⟩ := p
      by_cases hv : addrVersionOK ver versions u = true
      · by_cases hdup :
          acc.store.any (fun r => decide (r.pid = p')) = true
        · simpa [pullStep, hv, hdup] using hacc
        · have hall : ∀ x ∈ acc.store, ¬x.pid = p' := by
            simpa using hdup
          have hz : acc.store.countP (fun r => decide (r.pid = p')) = 0 := by
            apply List.countP_eq_zero.mpr
            intro r hr
            simpa using hall r hr
          simp only [pullStep, hv, if_true, hdup, Bool.false_eq_true, if_false]
          rw [List.countP_append]
          by_cases hpp : p' = pid
          · subst hpp
            have : acc.store.countP (fun r => decide (r.pid = p')) = 0 := hz
            simp [mkPayout, this]
          · have : ((mkPayout p' u amt now).pid = pid) = False := by
              simp [mkPayout, hpp]
            simp [List.countP_cons, this]
            omega
      · simpa [pullStep, hv] using hacc

/-- C6: pulling an externalId that is already present inserts nothing and is
counted as a duplicate; moreover any pull run keeps the number of rows for a
pid at most one when it was at most one, and at least one when it was at
least one — so pulling the same externalId any number of times leaves
exactly one local record. -/
theorem pull_payouts_idempotent_per_pid (ver : String → Option Nat)
    (versions : List Nat) (now : Nat) :
    (∀ (store : List PayoutRec) (user : String) (amount : Int) (pid : String),
      addrVersionOK ver versions user = true →
      (∃ r ∈ store, r.pid = pid) →
      (pull_payouts store ver versions now [(user, amount, pid)]).store
          = store ∧
      (pull_payouts store ver versions now
          [(user, amount, pid)]).repeatCount = 1) ∧
    (∀ (store : List PayoutRec) (payouts : List (String × Int × String))
        (pid : String),
      store.countP (fun r => decide (r.pid = pid)) ≤ 1 →
      (pull_payouts store ver versions now payouts).store.countP
        (fun r => decide (r.pid = pid)) ≤ 1) ∧
    (∀ (store : List PayoutRec) (payouts : List (String × Int × String))
        (pid : String),
      1 ≤ store.countP (fun r => decide (r.pid = pid)) →
      1 ≤ (pull_payouts store ver versions now payouts).store.countP
        (fun r => decide (r.pid = pid))) := by
  refine ⟨?_, ?_, ?_⟩
  · intro store user amount pid hv ⟨r, hr, hpid⟩
    have hdup : store.any (fun r => decide (r.pid = pid)) = true :=
      List.any_eq_true.mpr ⟨r, hr, by simp [hpid]⟩
    constructor
    · simp [pull_payouts, pullStep, hv, hdup]
    · simp [pull_payouts, pullStep, hv, hdup]
  · intro store payouts pid hle
    exact pullFold_countP_le ver versions now pid payouts ⟨store, 0, 0, 0⟩ hle
  · intro store payouts pid hge
    obtain ⟨ext, hext, -⟩ :=
      pullFold_store_shape ver versions now payouts ⟨store, 0, 0, 0⟩
    have hs : (⟨store, 0, 0, 0⟩ : PullState).store = store := rfl
    rw [pull_payouts, hext, hs, List.countP_append]
    omega

/-- C6 witness. -/
theorem pull_payouts_idempotent_per_pid_witness :
    (pull_payouts oneRecStore (fun _ => some 0) [0] 8
        [("alice", 5, "p1")]).store = oneRecStore ∧
    (pull_payouts oneRecStore (fun _ => some 0) [0] 8
        [("alice", 5, "p1")]).repeatCount = 1 :=
  (pull_payouts_idempotent_per_pid (fun _ => some 0) [0] 8).1 oneRecStore
    "alice" 5 "p1" (by decide)
    ⟨⟨"p1", "alice", 5, none, false, false, none, none, none, none⟩,
      by decide, rfl⟩

/-- C7 (amended): an accepted group is marked `associated=true` with
`assoc_time` set — record by record, each with its own commit, rather than
in one transaction; on a false `result` no record is modified and the trace
of commits is empty; and every pid grouped by `associate_all` comes from a
record with non-null `txid` and `associated=false`. -/
theorem associate_group_marking :
    (∀ (accept : String → Bool) (now : Nat) (t : String) (pids : List String)
        (store : List PayoutRec),
      accept t = true →
      (associate accept now t pids store).1
          = store.map (fun r => if r.pid ∈ pids then markAssoc now r else r) ∧
      (associate accept now t pids store).2.2 = true) ∧
    (∀ (accept : String → Bool) (now : Nat) (t : String) (pids : List String)
        (store : List PayoutRec),
      accept t = false →
      (associate accept now t pids store).1 = store ∧
      (associate accept now t pids store).2.1 = [] ∧
      (associate accept now t pids store).2.2 = false) ∧
    (∀ (store : List PayoutRec), ∀ g ∈ groupByTxid store, ∀ p ∈ g.2,
      ∃ r ∈ store, r.pid = p ∧ r.associated = false ∧ r.txid = some g.1) := by
  refine ⟨?_, ?_, ?_⟩
  · intro accept now t pids store h
    exact ⟨associate_fst_accept accept now t pids store h,
      by simp [associate, h]⟩
  · intro accept now t pids store h
    rw [associate_reject accept now t pids store h]
    exact ⟨rfl, rfl, rfl⟩
  · exact groupByTxid_sound

/-- C7 witness. -/
theorem associate_group_marking_witness :
    (associate (fun _ => true) 9 "t" ["a", "b"] assocPairStore).1
        = assocPairStore.map
            (fun r => if r.pid ∈ ["a", "b"] then markAssoc 9 r else r) ∧
    (associate (fun _ => true) 9 "t" ["a", "b"] assocPairStore).2.2 = true :=
  associate_group_marking.1 (fun _ => true) 9 "t" ["a", "b"] assocPairStore rfl

/-- The fee value a remote transaction object carries, if any: an absent
key and a null value both mean "no fee value" (this renders the claim's
phrase "the Remote's transaction object lacks a fee value"). -/
def feeValueOf : FeeField → Option ℚ
  | .absent => none
  | .nul => none
  | .val q => some q

/-- C9 counterexample: the claim's "exactly when the Wallet reports a fee
and the Remote object lacks a fee value" is false — for an object whose
JSON has no `fee` key at all, `confirm_trans` pushes nothing even though
the wallet reports a fee, because the source additionally requires
`'fee' in obj`. -/
theorem confirm_fee_claim_fails_on_absent_key :
    ¬ (∀ (lookup : String → Option WalletTx) (objs : List RemoteTxObj),
        ∀ obj ∈ objs,
          ((∃ v, (obj.txid, v) ∈ confirmFeesList lookup objs) ↔
            (((lookup obj.txid).bind (fun w => w.fee)).isSome = true ∧
              feeValueOf obj.fee = none))) := by
  intro h
  have h1 := h (fun _ => some ⟨0, some 1⟩) [⟨"t1", FeeField.absent⟩]
    ⟨"t1", FeeField.absent⟩ (List.mem_singleton.mpr rfl)
  obtain ⟨v, hv⟩ := h1.mpr ⟨rfl, rfl⟩
  have hemp : confirmFeesList (fun _ => some ⟨0, some 1⟩)
      [⟨"t1", FeeField.absent⟩] = [] := rfl
  rw [hemp] at hv
  exact List.not_mem_nil _ hv

/-- C9 (amended): a fee entry `(t, v)` is pushed exactly when some fetched
object has txid `t`, its wallet lookup succeeded and reported a fee `f`,
the remote object's `fee` key is present but its value falsy (null or
zero), and `v = int(f * 100000000)`. -/
theorem confirm_fee_pushed_iff (lookup : String → Option WalletTx)
    (objs : List RemoteTxObj) (t : String) (v : Int) :
    (t, v) ∈ confirmFeesList lookup objs ↔
      ∃ obj ∈ objs, obj.txid = t ∧
        ∃ td f, lookup obj.txid = some td ∧ td.fee = some f ∧
          feeKeyPresent obj.fee = true ∧ feeTruthy obj.fee = false ∧
          v = pyTrunc (f * 100000000) := by
  rw [confirmFeesList, List.mem_filterMap]
  constructor
  · rintro ⟨obj, hobj, hf⟩
    refine ⟨obj, hobj, ?_⟩
    cases hl : lookup obj.txid with
    | none =>
        simp [hl] at hf
    | some td =>
        simp only [hl] at hf
        cases hfee : td.fee with
        | none =>
            simp [hfee] at hf
        | some f =>
            simp only [hfee] at hf
            by_cases hc : (feeKeyPresent obj.fee && !feeTruthy obj.fee) = true
            · rw [if_pos hc] at hf
              injection hf with hpair
              injection hpair with ht hv
              have hc' : feeKeyPresent obj.fee = true ∧
                  feeTruthy obj.fee = false := by
                simpa [Bool.and_eq_true, Bool.not_eq_true'] using hc
              exact ⟨ht, td, f, rfl, hfee, hc'.1, hc'.2, hv.symm⟩
            · rw [if_neg hc] at hf
              exact absurd hf (by simp)
  · rintro ⟨obj, hobj, ht, td, f, hl, hfee, hkey, htr, hv⟩
    refine ⟨obj, hobj, ?_⟩
    simp only [hl, hfee]
    rw [if_pos (by simp [hkey, htr])]
    rw [ht, hv]

/-- C10: `reset_all_locked` preserves the store's length and, record by
record, only clears the `locked` flag: every resulting record is unlocked,
all other columns are unchanged, and a record that was already unlocked is
untouched. -/
theorem reset_all_locked_only_clears_locked (store : List PayoutRec) :
    (reset_all_locked store).length = store.length ∧
    ∀ (i : Nat) (r : PayoutRec), store[i]? = some r →
      ∃ r', (reset_all_locked store)[i]? = some r' ∧
        r'.locked = false ∧
        r'.pid = r.pid ∧ r'.user = r.user ∧ r'.amount = r.amount ∧
        r'.txid = r.txid ∧ r'.associated = r.associated ∧
        r'.lock_time = r.lock_time ∧ r'.paid_time = r.paid_time ∧
        r'.assoc_time = r.assoc_time ∧ r'.pull_time = r.pull_time ∧
        (r.locked = false → r' = r) := by
  refine ⟨by simp [reset_all_locked], ?_⟩
  intro i r h
  refine ⟨if r.locked then { r with locked := false } else r, ?_, ?_⟩
  · simp [reset_all_locked, List.getElem?_map, h]
  · by_cases hl : r.locked = true
    · simp [hl]
    · have hl' : r.locked = false := by simpa using hl
      simp [hl']

/-- C10 witness. -/
theorem reset_all_locked_only_clears_locked_witness :
    ∃ r', (reset_all_locked
        [⟨"p", "u", 1, some "x", true, true, some 1, some 2, some 3, some 4⟩])[0]?
          = some r' ∧
      r'.locked = false ∧
      r'.pid = "p" ∧ r'.user = "u" ∧ r'.amount = 1 ∧
      r'.txid = some "x" ∧ r'.associated = true ∧
      r'.lock_time = some 1 ∧ r'.paid_time = some 2 ∧
      r'.assoc_time = some 3 ∧ r'.pull_time = some 4 ∧
      ((⟨"p", "u", 1, some "x", true, true, some 1, some 2, some 3, some 4⟩ :
          PayoutRec).locked = false →
        r' = ⟨"p", "u", 1, some "x", true, true, some 1, some 2, some 3, some 4⟩) :=
  (reset_all_locked_only_clears_locked
      [⟨"p", "u", 1, some "x", true, true, some 1, some 2, some 3, some 4⟩]).2
    0 ⟨"p", "u", 1, some "x", true, true, some 1, some 2, some 3, some 4⟩ rfl

/-- C8: every store-writing operation preserves the record invariant
`associated=true ⇒ txid≠null`, and a non-null `txid` is never modified:
positionally, a record whose `txid` is `some t` still has `txid = some t`
after `pull_payouts`, `payout`, `associate_all` (whose invariant
preservation assumes the schema's pid-uniqueness constraint) and
`reset_all_locked`.  `confirm_trans` never touches the store (its embedding
takes no store argument), so it preserves both trivially. -/
theorem operations_preserve_record_invariants :
    (∀ (store : List PayoutRec) (ver : String → Option Nat)
        (versions : List Nat) (now : Nat)
        (payouts : List (String × Int × String)),
      StoreInv store →
      StoreInv (pull_payouts store ver versions now payouts).store) ∧
    (∀ (store : List PayoutRec) (ver : String → Option Nat)
        (versions : List Nat) (now : Nat)
        (payouts : List (String × Int × String)) (i : Nat) (r : PayoutRec)
        (t : String),
      store[i]? = some r → r.txid = some t →
      ∃ r', (pull_payouts store ver versions now payouts).store[i]? = some r' ∧
        r'.txid = some t) ∧
    (∀ (store : List PayoutRec) (balance newBalance : Int)
        (send : SendOutcome) (now : Nat),
      StoreInv store →
      StoreInv (payout store balance send newBalance now).durable) ∧
    (∀ (store : List PayoutRec) (balance newBalance : Int)
        (send : SendOutcome) (now : Nat) (i : Nat) (r : PayoutRec)
        (t : String),
      store[i]? = some r → r.txid = some t →
      ∃ r', (payout store balance send newBalance now).durable[i]? = some r' ∧
        r'.txid = some t) ∧
    (∀ (accept : String → Bool) (now : Nat) (store : List PayoutRec),
      StoreInv store → (store.map (fun r => r.pid)).Nodup →
      StoreInv (associate_all accept now store)) ∧
    (∀ (accept : String → Bool) (now : Nat) (store : List PayoutRec)
        (i : Nat) (r : PayoutRec) (t : String),
      store[i]? = some r → r.txid = some t →
      ∃ r', (associate_all accept now store)[i]? = some r' ∧
        r'.txid = some t) ∧
    (∀ (store : List PayoutRec),
      StoreInv store → StoreInv (reset_all_locked store)) ∧
    (∀ (store : List PayoutRec) (i : Nat) (r : PayoutRec) (t : String),
      store[i]? = some r → r.txid = some t →
      ∃ r', (reset_all_locked store)[i]? = some r' ∧ r'.txid = some t) := by
  refine ⟨?_, ?_, ?_, ?_, ?_, ?_, ?_, ?_⟩
  · -- pull preserves the invariant: appended rows are unassociated
    intro store ver versions now payouts hInv r' hr' hA
    obtain ⟨ext, hext, hprop⟩ :=
      pullFold_store_shape ver versions now payouts ⟨store, 0, 0, 0⟩
    rw [pull_payouts, hext] at hr'
    rcases List.mem_append.mp hr' with hm | hm
    · exact hInv r' hm hA
    · exact absurd hA (by simp [(hprop r' hm).2.1])
  · -- pull never modifies an existing txid
    intro store ver versions now payouts i r t h ht
    obtain ⟨ext, hext, -⟩ :=
      pullFold_store_shape ver versions now payouts ⟨store, 0, 0, 0⟩
    have hi : i < store.length := (List.getElem?_eq_some_iff.mp h).1
    refine ⟨r, ?_, ht⟩
    rw [pull_payouts, hext, List.getElem?_append]
    simpa [hi] using h
  · -- payout preserves the invariant
    intro store balance newBalance send now hInv r' hr' hA
    obtain ⟨i, hlen, hgi⟩ := List.mem_iff_getElem.mp hr'
    have hilt : i < store.length := by
      rw [← payout_durable_length store balance send newBalance now]
      exact hlen
    have hsi : store[i]? = some store[i] := List.getElem?_eq_getElem hilt
    have hdi : (payout store balance send newBalance now).durable[i]?
        = some r' := by
      rw [List.getElem?_eq_getElem hlen, hgi]
    have hsm : store[i] ∈ store := List.getElem_mem hilt
    rcases payout_durable_getElem store balance send newBalance now i
        store[i] hsi with h1 | ⟨he, h2⟩
    · have : store[i] = r' := Option.some.inj (h1.symm.trans hdi)
      exact hInv r' (this ▸ hsm) hA
    · have htn : store[i].txid = none := by
        have := he
        simp only [eligible, Bool.and_eq_true, Option.isNone_iff_eq_none] at this
        exact this.1
      rcases h2 with h2 | ⟨tt, h2⟩
      · have hr : lockRec now store[i] = r' :=
          Option.some.inj (h2.symm.trans hdi)
        have hA' : store[i].associated = true := by
          rw [← hr] at hA
          exact hA
        exact absurd htn (hInv store[i] hsm hA')
      · have hr : payRec tt now (lockRec now store[i]) = r' :=
          Option.some.inj (h2.symm.trans hdi)
        rw [← hr]
        simp [payRec]
  · -- payout never modifies an existing txid
    intro store balance newBalance send now i r t h ht
    rcases payout_durable_getElem store balance send newBalance now i r h with
      h1 | ⟨he, -⟩
    · exact ⟨r, h1, ht⟩
    · exact absurd he (by simp [eligible, ht])
  · -- associate_all preserves the invariant (pids unique)
    intro accept now store hInv hnodup r' hr' hA
    obtain ⟨i, hlen, hgi⟩ := List.mem_iff_getElem.mp hr'
    have hilt : i < store.length := by
      rw [← associate_all_length accept now store]
      exact hlen
    have hsi : store[i]? = some store[i] := List.getElem?_eq_getElem hilt
    have hsm : store[i] ∈ store := List.getElem_mem hilt
    have hdi : (associate_all accept now store)[i]? = some r' := by
      rw [List.getElem?_eq_getElem hlen, hgi]
    rw [associate_all] at hdi
    rcases assocAllFold_getElem accept now (groupByTxid store) store i
        store[i] hsi with h1 | ⟨h1, g, hg, hpm⟩
    · have : store[i] = r' := Option.some.inj (h1.symm.trans hdi)
      exact hInv r' (this ▸ hsm) hA
    · have hr : markAssoc now store[i] = r' :=
        Option.some.inj (h1.symm.trans hdi)
      obtain ⟨r0, hr0, hpid0, -, htx0⟩ := groupByTxid_sound store g hg _ hpm
      have : r0 = store[i] :=
        List.inj_on_of_nodup_map hnodup hr0 hsm hpid0
      rw [← hr]
      show (markAssoc now store[i]).txid ≠ none
      have : store[i].txid = some g.1 := by
        rw [← this]
        exact htx0
      simp [markAssoc, this]
  · -- associate_all never modifies an existing txid
    intro accept now store i r t h ht
    rcases assocAllFold_getElem accept now (groupByTxid store) store i r h
      with h1 | ⟨h1, -⟩
    · exact ⟨r, by rw [associate_all]; exact h1, ht⟩
    · exact ⟨markAssoc now r, by rw [associate_all]; exact h1, ht⟩
  · -- reset_all_locked preserves the invariant
    intro store hInv r' hr' hA
    rcases List.mem_map.mp hr' with ⟨r, hr, him⟩
    by_cases hl : r.locked = true
    · rw [if_pos hl] at him
      subst him
      exact hInv r hr (by simpa using hA)
    · rw [if_neg hl] at him
      subst him
      exact hInv r hr hA
  · -- reset_all_locked never modifies an existing txid
    intro store i r t h ht
    refine ⟨if r.locked then { r with locked := false } else r, ?_, ?_⟩
    · simp [reset_all_locked, List.getElem?_map, h]
    · by_cases hl : r.locked = true
      · simp [hl, ht]
      · simp [hl, ht]

/-- C8 witness. -/
theorem operations_preserve_record_invariants_witness :
    StoreInv (pull_payouts oneRecStore (fun _ => some 0) [0] 8
      [("bob", 2, "p2")]).store ∧
    StoreInv (associate_all (fun _ => true) 9 assocPairStore) :=
  ⟨operations_preserve_record_invariants.1 oneRecStore (fun _ => some 0) [0] 8
      [("bob", 2, "p2")]
      (by decide : ∀ r ∈ oneRecStore, r.associated = true → r.txid ≠ none),
   operations_preserve_record_invariants.2.2.2.2.1 (fun _ => true) 9
      assocPairStore
      (by decide : ∀ r ∈ assocPairStore, r.associated = true → r.txid ≠ none)
      (by decide)⟩

end Simplecoin
